import Mathlib

/-!
Verification development for the fpl-mcp repository.

The development shallow-embeds the core of src/cache.ts (the cache
coordinator getBootstrapCached, the fuzzy player-resolution engine
searchPlayers / resolvePlayerByName / matchScore, and the
getUnavailablePlayers view builder) together with the force-refresh
behaviour of the refresh_bootstrap tool of src/tools.ts.

Modelling conventions:
- JS strings are lists of characters (Str).  The Unicode NFKD
  decomposition and diacritic stripping of norm (cache.ts line 76-77)
  is the identity on this code-point model; every other step of the
  normalisation pipeline is embedded literally.
- JS numbers are rationals; machine timestamps are rationals counting
  milliseconds.
- Fallible operations return Except; the JS value undefined is
  modelled by the none of an Option.
- JSON.parse is an oracle parameter: the cache theorems hold for every
  parsing function.
-/

namespace FplMcp

/-- Strings of the JS runtime, modelled as lists of characters. -/
abbrev Str := List Char

/-- The space character. -/
def spc : Char := Char.ofNat 32

/-- Characters that norm collapses to spaces (cache.ts line 78:
    the hyphen, the apostrophe and the right single quotation mark). -/
def sepToSpace (c : Char) : Char :=
  if c = Char.ofNat 45 ∨ c = Char.ofNat 39 ∨ c = Char.ofNat 8217 then spc else c

/-- Character-wise part of norm (cache.ts lines 75-78): toLowerCase,
    then NFKD decomposition and diacritic stripping (the identity on
    this code-point model), then separator characters become spaces. -/
def preNorm (s : Str) : Str := s.map (fun c => sepToSpace c.toLower)

/-- Maximal runs of characters rejected by p, in order.  With p the
    whitespace test this is the word list used to model the
    whitespace collapsing and trimming of norm (cache.ts lines 79-80);
    with p the space test it models split of a string on single spaces
    followed by filter(Boolean) (cache.ts line 84). -/
def splitWordsAux (p : Char → Bool) : List Char → List Char → List (List Char)
  | [], acc => if acc = [] then [] else [acc.reverse]
  | c :: cs, acc =>
    if p c then
      (if acc = [] then splitWordsAux p cs [] else acc.reverse :: splitWordsAux p cs [])
    else splitWordsAux p cs (c :: acc)

/-- Whitespace-separated words of a string. -/
def wordsOf (s : Str) : List Str := splitWordsAux Char.isWhitespace s []

/-- Single-space join of a word list. -/
def joinSp : List Str → Str
  | [] => []
  | [w] => w
  | w :: ws => w ++ spc :: joinSp ws

/-- Normalisation for fuzzy matching (cache.ts lines 73-81).  The
    source lower-cases, strips diacritics, maps separators to spaces,
    replaces every whitespace run by one space and trims; replacing
    whitespace runs by single spaces and trimming is exactly the
    single-space join of the whitespace-separated words. -/
def norm (s : Str) : Str := joinSp (wordsOf (preNorm s))

/-- Tokenisation (cache.ts lines 83-85): norm(s).split(" ").filter(Boolean),
    i.e. the maximal non-space runs of the normalised string. -/
def tokens (s : Str) : List Str := splitWordsAux (fun c => c = spc) (norm s) []

/-- Bool test that subject starts with pat (JS String.prototype.startsWith). -/
def startsWithB : Str → Str → Bool
  | _, [] => true
  | [], _ :: _ => false
  | c :: cs, d :: ds => c == d && startsWithB cs ds

/-- Bool test that subject contains pat as a contiguous substring
    (JS String.prototype.includes). -/
def includesB : Str → Str → Bool
  | [], pat => startsWithB [] pat
  | c :: cs, pat => startsWithB (c :: cs) pat || includesB cs pat

/-- JS String.prototype.trim: drop whitespace from both ends. -/
def jsTrim (s : Str) : Str :=
  ((s.dropWhile Char.isWhitespace).reverse.dropWhile Char.isWhitespace).reverse

/-- JS String.prototype.toLowerCase, character-wise on this model. -/
def jsLower (s : Str) : Str := s.map Char.toLower

/-- Player record: the subset of the upstream element consumed by the
    embedded functions.  selected_by_percent is a decimal string in the
    upstream data; the model carries the numeric value Number.parseFloat
    extracts from it (an empty string parses to 0 via the fallback at
    cache.ts line 110). -/
structure Player where
  id : Int
  web_name : Str
  first_name : Str
  second_name : Str
  element_type : Int
  team : Int
  now_cost : Int
  status : Str
  news : Str
  chance_of_playing_next_round : Option ℚ
  selected_by_percent : ℚ
  total_points : Int
deriving DecidableEq

/-- Team record (id, short code, full name). -/
structure Team where
  id : Int
  short_name : Str
  name : Str
deriving DecidableEq

/-- Bootstrap snapshot: the collections the embedded functions read. -/
structure Boot where
  elements : List Player
  teams : List Team
deriving DecidableEq

/-- Position short codes accepted by the position filter. -/
inductive PosCode where
  | GKP | DEF | MID | FWD
deriving DecidableEq

/-- Position filter argument: numeric code or short-code alias. -/
inductive PosSel where
  | pnum (n : Int)
  | pcode (c : PosCode)
deriving DecidableEq

/-- Team filter argument: numeric id, or short/full name string. -/
inductive TeamSel where
  | tnum (n : Int)
  | tstr (s : Str)
deriving DecidableEq

/-- Numeric id of a position short code (cache.ts line 133). -/
def posCodeId : PosCode → Int
  | .GKP => 1
  | .DEF => 2
  | .MID => 3
  | .FWD => 4

/-- Resolution of the optional position filter (cache.ts lines 130-134). -/
def resolvePositionId : Option PosSel → Option Int
  | some (.pnum n) => some n
  | some (.pcode c) => some (posCodeId c)
  | none => none

/-- Resolution of the optional team filter of searchPlayers
    (cache.ts lines 136-143): a string is matched against every team
    short name and full name under norm; the id of the first match is
    used, and a miss leaves the filter undefined. -/
def resolveTeamIdSearch (teams : List Team) : Option TeamSel → Option Int
  | some (.tnum n) => some n
  | some (.tstr s) =>
      (teams.find? (fun x =>
        (norm x.short_name == norm s) || (norm x.name == norm s))).map Team.id
  | none => none

/-- Resolution of the optional team filter of getUnavailablePlayers
    (cache.ts lines 252-260): matching is by toLowerCase only. -/
def resolveTeamIdUnavail (teams : List Team) : Option TeamSel → Option Int
  | some (.tnum n) => some n
  | some (.tstr s) =>
      (teams.find? (fun x =>
        (jsLower x.short_name == jsLower s) || (jsLower x.name == jsLower s))).map Team.id
  | none => none

/-- JS truthiness of a resolved numeric filter: undefined and 0 are falsy. -/
def idActive : Option Int → Bool
  | none => false
  | some n => n != 0

/-- Position/team pre-filter shared by searchPlayers (cache.ts lines
    145-149) and getUnavailablePlayers (cache.ts lines 263-268). -/
def keepPlayer (positionId teamId : Option Int) (p : Player) : Bool :=
  if idActive positionId && (p.element_type != positionId.getD 0) then false
  else if idActive teamId && (p.team != teamId.getD 0) then false
  else true

/-- Score of a player against a normalised query and its tokens
    (cache.ts lines 88-114). -/
def matchScore (p : Player) (qNorm : Str) (qTokens : List Str) : ℚ :=
  let web := norm p.web_name
  let full := norm (p.first_name ++ spc :: p.second_name)
  let last := norm p.second_name
  let base : ℚ :=
    (if web == qNorm then (100 : ℚ) else 0)
    + (if full == qNorm then (90 : ℚ) else 0)
    + (if last == qNorm then (85 : ℚ) else 0)
    + (if startsWithB web qNorm then (60 : ℚ) else 0)
    + (if startsWithB last qNorm then (55 : ℚ) else 0)
    + (if startsWithB full qNorm then (50 : ℚ) else 0)
  let hay := web ++ spc :: (full ++ spc :: last)
  let withTokens := qTokens.foldl (fun sc t => if includesB hay t then sc + 10 else sc) base
  withTokens + min 10 (p.selected_by_percent / 5) + min 10 ((p.total_points : ℚ) / 50)

/-- Order induced by the ranking comparator of searchPlayers
    (cache.ts line 154): descending score, ties by descending total
    season points. -/
def rankRel (a b : Player × ℚ) : Prop :=
  b.2 < a.2 ∨ (a.2 = b.2 ∧ b.1.total_points ≤ a.1.total_points)

instance : DecidableRel rankRel := fun a b => by
  unfold rankRel; infer_instance

instance : IsTotal (Player × ℚ) rankRel where
  total a b := by
    unfold rankRel
    rcases lt_trichotomy a.2 b.2 with h | h | h
    · exact Or.inr (Or.inl h)
    · rcases le_total b.1.total_points a.1.total_points with h2 | h2
      · exact Or.inl (Or.inr ⟨h, h2⟩)
      · exact Or.inr (Or.inr ⟨h.symm, h2⟩)
    · exact Or.inl (Or.inl h)

instance : IsTrans (Player × ℚ) rankRel where
  trans a b c hab hbc := by
    unfold rankRel at *
    rcases hab with h | ⟨he, hl⟩ <;> rcases hbc with h2 | ⟨he2, hl2⟩
    · exact Or.inl (h2.trans h)
    · exact Or.inl (he2 ▸ h)
    · exact Or.inl (he ▸ h2)
    · exact Or.inr ⟨he.trans he2, hl2.trans hl⟩

/-- Optional arguments of searchPlayers (cache.ts line 123). -/
structure SearchOpts where
  position : Option PosSel
  team : Option TeamSel
  limit : Option Int
deriving DecidableEq

/-- Free-text player search (cache.ts lines 120-159): normalise and
    tokenise the query, return [] for an empty normalised query,
    resolve the optional filters, filter, score, drop zero scores,
    sort by the ranking comparator, and truncate to max 1 limit
    (limit defaulting to 10). -/
def searchPlayers (boot : Boot) (query : Str) (opts : SearchOpts) : List Player :=
  let qNorm := norm query
  let qTokens := tokens query
  if qNorm = [] then []
  else
    let positionId := resolvePositionId opts.position
    let teamId := resolveTeamIdSearch boot.teams opts.team
    let filtered := boot.elements.filter (keepPlayer positionId teamId)
    let scored := filtered.map (fun p => (p, matchScore p qNorm qTokens))
    let positives := scored.filter (fun x => decide (0 < x.2))
    let ranked := (List.insertionSort rankRel positives).map Prod.fst
    let lim := max 1 (opts.limit.getD 10)
    ranked.take lim.toNat

/-- Convenience single-result resolution (cache.ts lines 162-164):
    searchPlayers with limit 1, first element or null. -/
def resolvePlayerByName (boot : Boot) (name : Str) : Option Player :=
  (searchPlayers boot name ⟨none, none, some 1⟩).head?

/-- Decimal-digit rendering of an integer id, for synthetic labels. -/
def intLabel (n : Int) : Str := (toString n).data

/-- Team short-code label (cache.ts line 67): lookup by id with a
    synthetic fallback label T followed by the id. -/
def teamShort (boot : Boot) (tid : Int) : Str :=
  match (boot.teams.find? (fun t => t.id == tid)).map Team.short_name with
  | some s => s
  | none => Char.ofNat 84 :: intLabel tid

/-- Position id to short code (cache.ts lines 60-65); an id outside
    1..4 yields undefined. -/
def idToPos : Int → Option PosCode
  | 1 => some .GKP
  | 2 => some .DEF
  | 3 => some .MID
  | 4 => some .FWD
  | _ => none

/-- Availability status label (cache.ts lines 308-318). -/
def getStatusText (status : Str) : Str :=
  if status = [Char.ofNat 97] then
    [Char.ofNat 65, Char.ofNat 118, Char.ofNat 97, Char.ofNat 105, Char.ofNat 108,
     Char.ofNat 97, Char.ofNat 98, Char.ofNat 108, Char.ofNat 101]
  else if status = [Char.ofNat 100] then
    [Char.ofNat 68, Char.ofNat 111, Char.ofNat 117, Char.ofNat 98, Char.ofNat 116,
     Char.ofNat 102, Char.ofNat 117, Char.ofNat 108]
  else if status = [Char.ofNat 105] then
    [Char.ofNat 73, Char.ofNat 110, Char.ofNat 106, Char.ofNat 117, Char.ofNat 114,
     Char.ofNat 101, Char.ofNat 100]
  else if status = [Char.ofNat 110] then
    [Char.ofNat 78, Char.ofNat 111, Char.ofNat 116, spc, Char.ofNat 97,
     Char.ofNat 118, Char.ofNat 97, Char.ofNat 105, Char.ofNat 108, Char.ofNat 97,
     Char.ofNat 98, Char.ofNat 108, Char.ofNat 101]
  else if status = [Char.ofNat 115] then
    [Char.ofNat 83, Char.ofNat 117, Char.ofNat 115, Char.ofNat 112, Char.ofNat 101,
     Char.ofNat 110, Char.ofNat 100, Char.ofNat 101, Char.ofNat 100]
  else if status = [Char.ofNat 117] then
    [Char.ofNat 85, Char.ofNat 110, Char.ofNat 97, Char.ofNat 118, Char.ofNat 97,
     Char.ofNat 105, Char.ofNat 108, Char.ofNat 97, Char.ofNat 98, Char.ofNat 108,
     Char.ofNat 101]
  else
    [Char.ofNat 83, Char.ofNat 116, Char.ofNat 97, Char.ofNat 116, Char.ofNat 117,
     Char.ofNat 115, Char.ofNat 58, spc] ++ status

/-- Filters of getUnavailablePlayers (cache.ts lines 239-243). -/
structure UnavailFilters where
  position : Option PosSel
  team : Option TeamSel
  includeDoubtful : Option Bool
deriving DecidableEq

/-- Availability code "a". -/
def statusAvailable : Str := [Char.ofNat 97]

/-- Element filter of getUnavailablePlayers (cache.ts lines 263-280):
    position and team pre-filters, then the availability conditions.
    includeDoubtful is an optional boolean: undefined is distinct from
    an explicit false. -/
def unavailableKeep (positionId teamId : Option Int) (includeDoubtful : Option Bool)
    (p : Player) : Bool :=
  if idActive positionId && (p.element_type != positionId.getD 0) then false
  else if idActive teamId && (p.team != teamId.getD 0) then false
  else
    let hasNews := (p.news != []) && decide (0 < (jsTrim p.news).length)
    let isUnavailable := p.status != statusAvailable
    let isDoubtful :=
      match p.chance_of_playing_next_round with
      | some c => decide (c < 100)
      | none => false
    if isUnavailable then true
    else if hasNews && (includeDoubtful != some false) then true
    else if isDoubtful && (includeDoubtful == some true) then true
    else false

/-- Projected output record of getUnavailablePlayers (cache.ts lines
    281-295).  The price label keeps the numeric value now_cost/10 the
    source renders as a pound string. -/
structure UnavailableEntry where
  id : Int
  web_name : Str
  first_name : Str
  second_name : Str
  team : Str
  position : Option PosCode
  status : Str
  statusText : Str
  news : Str
  chanceOfPlayingNextRound : Option ℚ
  price : ℚ
  totalPoints : Int
  selectedByPercent : ℚ
deriving DecidableEq

/-- Projection of a qualifying player (cache.ts lines 281-295). -/
def toUnavailableEntry (boot : Boot) (p : Player) : UnavailableEntry where
  id := p.id
  web_name := p.web_name
  first_name := p.first_name
  second_name := p.second_name
  team := teamShort boot p.team
  position := idToPos p.element_type
  status := p.status
  statusText := getStatusText p.status
  news := p.news
  chanceOfPlayingNextRound := p.chance_of_playing_next_round
  price := (p.now_cost : ℚ) / 10
  totalPoints := p.total_points
  selectedByPercent := p.selected_by_percent

/-- Order induced by the severity comparator of getUnavailablePlayers
    (cache.ts lines 296-303): when the statuses differ, a first element
    with non-available status sorts first; equal statuses fall back to
    descending ownership. -/
def unavailRel (a b : UnavailableEntry) : Prop :=
  if a.status ≠ b.status then a.status ≠ statusAvailable
  else b.selectedByPercent ≤ a.selectedByPercent

instance : DecidableRel unavailRel := fun a b => by
  unfold unavailRel; infer_instance

/-- Injured/unavailable player view (cache.ts lines 239-306). -/
def getUnavailablePlayers (boot : Boot) (filters : UnavailFilters) : List UnavailableEntry :=
  let positionId := resolvePositionId filters.position
  let teamId := resolveTeamIdUnavail boot.teams filters.team
  let kept := boot.elements.filter
    (unavailableKeep positionId teamId filters.includeDoubtful)
  List.insertionSort unavailRel (kept.map (toUnavailableEntry boot))

/-! Cache coordinator model.

getBootstrapCached (cache.ts lines 26-56) is embedded as a big-step
function of one call executed with no other fetch pending: the stored
raw value, the clock, the allowStale option and the outcome the
upstream would deliver to a fetch are parameters, and the outcome
records the returned (or thrown) value together with whether a
foreground fetch was awaited and whether a background refresh was
started.  The interleaving of several calls and of the force-refresh
tool is treated separately by the FlightStep transition system. -/

/-- Fields read off a parsed or cast envelope value.  A JS object is
    cast blindly at cache.ts line 37, so either field may be undefined
    (none): a missing or non-numeric fetchedAt makes the freshness
    subtraction NaN. -/
structure EnvFields (P : Type) where
  payload : Option P
  fetchedAt : Option ℚ
deriving DecidableEq

/-- Raw value returned by kv.get, classified the way cache.ts lines
    34-40 probe it: a string, a non-null object (its two envelope
    fields read off it), some other truthy value (the explicit throw at
    line 39), or a falsy non-null value which fails the if (raw) test. -/
inductive Raw (P : Type) where
  | rstr (s : Str)
  | robj (payload : Option P) (fetchedAt : Option ℚ)
  | rtruthyOther
  | rfalsy
deriving DecidableEq

/-- JS truthiness of the raw value (cache.ts line 29). -/
def rawTruthy {P : Type} : Raw P → Bool
  | .rstr s => s != []
  | .robj _ _ => true
  | .rtruthyOther => true
  | .rfalsy => false

/-- Envelope extraction inside the try block (cache.ts lines 32-40):
    strings go through JSON.parse (the oracle jsonParse, none meaning
    the parse throws), objects are cast blindly, any other truthy
    value throws; none is a caught exception. -/
def envOf {P : Type} (jsonParse : Str → Option (EnvFields P)) : Raw P → Option (EnvFields P)
  | .rstr s => jsonParse s
  | .robj p t => some ⟨p, t⟩
  | .rtruthyOther => none
  | .rfalsy => none

/-- Freshness TTL in seconds (cache.ts line 5). -/
def TTL_SECONDS : ℚ := 3600

/-- Freshness test (cache.ts line 42): (now - fetchedAt) / 1000 <
    TTL_SECONDS, with timestamps in milliseconds; a missing fetchedAt
    makes the comparison a NaN comparison, which is false. -/
def isFresh (now : ℚ) (fetchedAt : Option ℚ) : Bool :=
  match fetchedAt with
  | some t => decide ((now - t) / 1000 < TTL_SECONDS)
  | none => false

/-- Outcome of one getBootstrapCached call: the returned JS value (none
    modelling undefined) or the propagated exception, whether a
    foreground fetch was awaited, and whether a background refresh was
    started. -/
structure GetOutcome (E P : Type) where
  result : Except E (Option P)
  fgFetch : Bool
  bgFetch : Bool

/-- Big-step embedding of getBootstrapCached (cache.ts lines 26-56) for
    a call that begins with no fetch in flight.  allowStale is the raw
    optional field of the options object; the stale branch is taken when
    it is not explicitly false (line 44). -/
def getBootstrapCached {E P : Type} (jsonParse : Str → Option (EnvFields P))
    (raw : Option (Raw P)) (now : ℚ) (allowStale : Option Bool)
    (fetch : Except E P) : GetOutcome E P :=
  let doFetch : GetOutcome E P := ⟨fetch.map some, true, false⟩
  match raw with
  | none => doFetch
  | some r =>
    if rawTruthy r then
      match envOf jsonParse r with
      | none => doFetch
      | some env =>
        if isFresh now env.fetchedAt then ⟨.ok env.payload, false, false⟩
        else if allowStale != some false then ⟨.ok env.payload, false, true⟩
        else doFetch
    else doFetch

/-- Parsed envelope available to a call, if any: the raw value must be
    truthy and must survive envelope extraction. -/
def usableEnv {P : Type} (jsonParse : Str → Option (EnvFields P)) :
    Option (Raw P) → Option (EnvFields P)
  | none => none
  | some r => if rawTruthy r then envOf jsonParse r else none

/-! Single-flight transition system.

The process-wide state relevant to the single-flight invariant is the
shared inflight handle (cache.ts line 6) together with the numbers of
pending upstream fetches started by getBootstrapCached (cache.ts lines
45 and 54) and by the refresh_bootstrap tool (tools.ts line 214, which
calls fetchUpstream directly, without consulting the handle).  The JS
event loop runs the null test and the assignment of the handle without
an intervening suspension point, so each is one atomic step. -/

structure FlightState where
  inflight : Bool
  cachePending : Nat
  refreshPending : Nat
deriving DecidableEq

/-- Atomic steps of the fetch-coordination state. -/
inductive FlightStep : FlightState → FlightState → Prop where
  | startCache (c r : Nat) :
      FlightStep ⟨false, c, r⟩ ⟨true, c + 1, r⟩
  | settleCache (i : Bool) (c r : Nat) :
      FlightStep ⟨i, c + 1, r⟩ ⟨false, c, r⟩
  | startRefresh (i : Bool) (c r : Nat) :
      FlightStep ⟨i, c, r⟩ ⟨i, c, r + 1⟩
  | settleRefresh (i : Bool) (c r : Nat) :
      FlightStep ⟨i, c, r + 1⟩ ⟨i, c, r⟩

/-- States reachable from process start (no handle, nothing pending). -/
inductive FlightReachable : FlightState → Prop where
  | init : FlightReachable ⟨false, 0, 0⟩
  | step {s t : FlightState} :
      FlightReachable s → FlightStep s t → FlightReachable t

/-! Sample data for concrete evaluations. -/

/-- Player with no match signal for the query used against it. -/
def pZero : Player :=
  ⟨1, [Char.ofNat 122], [Char.ofNat 122], [Char.ofNat 122], 3, 1, 50,
    statusAvailable, [], none, 0, 0⟩

/-- Snapshot holding only pZero. -/
def bootZero : Boot := ⟨[pZero], []⟩

/-- Exact-match candidate for the two-letter query: web name equal to
    the query, zero popularity and zero points. -/
def pExact : Player :=
  ⟨1, [Char.ofNat 97, Char.ofNat 98], [Char.ofNat 120], [Char.ofNat 121], 3, 1, 50,
    statusAvailable, [], none, 0, 0⟩

/-- Token-only candidate: contains the query inside its web name but
    matches no equality or starts-with test. -/
def pToken : Player :=
  ⟨2, [Char.ofNat 122, Char.ofNat 97, Char.ofNat 98], [Char.ofNat 122], [Char.ofNat 119],
    3, 1, 50, statusAvailable, [], none, 0, 0⟩

/-- The exact-match candidate with a hugely negative season total. -/
def pExactNeg : Player :=
  ⟨1, [Char.ofNat 97, Char.ofNat 98], [Char.ofNat 120], [Char.ofNat 121], 3, 1, 50,
    statusAvailable, [], none, 0, -100000⟩

/-- Two-letter query for the exact-versus-token comparison. -/
def qAB : Str := [Char.ofNat 97, Char.ofNat 98]

/-- Available player carrying non-empty news. -/
def pNews : Player :=
  ⟨3, [Char.ofNat 110], [Char.ofNat 110], [Char.ofNat 110], 3, 1, 50,
    statusAvailable, [Char.ofNat 120], none, 0, 0⟩

/-- Snapshot holding only pNews. -/
def bootNews : Boot := ⟨[pNews], []⟩

/-- Available player with a reduced chance of playing. -/
def pDoubt : Player :=
  ⟨4, [Char.ofNat 100], [Char.ofNat 100], [Char.ofNat 100], 3, 1, 50,
    statusAvailable, [], some 50, 0, 0⟩

/-- Single-letter query player for the end-to-end search evaluation. -/
def pS : Player :=
  ⟨5, [Char.ofNat 115], [Char.ofNat 120], [Char.ofNat 121], 3, 1, 50,
    statusAvailable, [], none, 0, 0⟩

/-- Snapshot holding only pS. -/
def bootS : Boot := ⟨[pS], []⟩

/-- Team record for the unknown-team-filter evaluation. -/
def teamARS : Team :=
  ⟨1, [Char.ofNat 97, Char.ofNat 114, Char.ofNat 115],
    [Char.ofNat 97, Char.ofNat 114, Char.ofNat 115, Char.ofNat 101, Char.ofNat 110,
     Char.ofNat 97, Char.ofNat 108]⟩

/-- Snapshot with one player and one team. -/
def bootST : Boot := ⟨[pS], [teamARS]⟩

/-! Helper lemmas. -/

lemma sub_append_right {t x : Str} (y : Str) (h : t <:+: x) : t <:+: x ++ y := by
  obtain ⟨u, v, huv⟩ := h
  exact ⟨u, v ++ y, by rw [← huv]; simp⟩

lemma sub_append_left {t y : Str} (x : Str) (h : t <:+: y) : t <:+: x ++ y := by
  obtain ⟨u, v, huv⟩ := h
  exact ⟨x ++ u, v, by rw [← huv]; simp⟩

lemma sub_cons {t x : Str} (c : Char) (h : t <:+: x) : t <:+: c :: x :=
  sub_append_left [c] h

lemma mem_splitWordsAux {p : Char → Bool} (l : List Char) :
    ∀ (acc : List Char) (t : Str), t ∈ splitWordsAux p l acc → t <:+: acc.reverse ++ l := by
  induction l with
  | nil =>
    intro acc t h
    unfold splitWordsAux at h
    split at h
    · exact absurd h (List.not_mem_nil t)
    · rw [List.mem_singleton] at h
      subst h
      exact ⟨[], [], by simp⟩
  | cons c cs ih =>
    intro acc t h
    unfold splitWordsAux at h
    by_cases hp : p c = true
    · rw [if_pos hp] at h
      by_cases ha : acc = []
      · rw [if_pos ha] at h
        subst ha
        simpa using sub_cons c (by simpa using ih [] t h)
      · rw [if_neg ha] at h
        rcases List.mem_cons.mp h with h1 | h2
        · subst h1
          exact ⟨[], c :: cs, by simp⟩
        · exact sub_append_left acc.reverse (sub_cons c (by simpa using ih [] t h2))
    · rw [if_neg hp] at h
      have := ih (c :: acc) t h
      simpa using this

lemma tokens_sub {q t : Str} (h : t ∈ tokens q) : t <:+: norm q := by
  simpa using mem_splitWordsAux (norm q) [] t h

lemma startsWithB_of_pre {pat s : Str} (h : pat <+: s) : startsWithB s pat = true := by
  induction pat generalizing s with
  | nil => cases s <;> rfl
  | cons d ds ih =>
    obtain ⟨v, hv⟩ := h
    subst hv
    simp only [List.cons_append, startsWithB, beq_self_eq_true, Bool.true_and]
    exact ih ⟨v, rfl⟩

lemma includesB_of_sub {t hay : Str} (h : t <:+: hay) : includesB hay t = true := by
  obtain ⟨u, v, huv⟩ := h
  induction u generalizing hay with
  | nil =>
    have hpre : startsWithB hay t = true := startsWithB_of_pre ⟨v, by simpa using huv⟩
    cases hay with
    | nil =>
      simpa [includesB] using hpre
    | cons c cs =>
      simp [includesB, hpre]
  | cons c u2 ih =>
    subst huv
    simp only [List.cons_append, includesB, Bool.or_eq_true]
    exact Or.inr (ih rfl)

lemma foldl_token_eq (hay : Str) (l : List Str) :
    ∀ a : ℚ, l.foldl (fun sc t => if includesB hay t then sc + 10 else sc) a
      = a + 10 * l.countP (fun t => includesB hay t) := by
  induction l with
  | nil => intro a; simp
  | cons t ts ih =>
    intro a
    simp only [List.foldl_cons, List.countP_cons]
    by_cases h : includesB hay t = true
    · rw [if_pos h, ih]
      simp [h]
      ring
    · rw [if_neg h, ih]
      simp [h]

lemma matchScore_eq (p : Player) (qNorm : Str) (qTokens : List Str) :
    matchScore p qNorm qTokens =
      ((if (norm p.web_name == qNorm) then (100 : ℚ) else 0)
        + (if (norm (p.first_name ++ spc :: p.second_name) == qNorm) then (90 : ℚ) else 0)
        + (if (norm p.second_name == qNorm) then (85 : ℚ) else 0)
        + (if startsWithB (norm p.web_name) qNorm then (60 : ℚ) else 0)
        + (if startsWithB (norm p.second_name) qNorm then (55 : ℚ) else 0)
        + (if startsWithB (norm (p.first_name ++ spc :: p.second_name)) qNorm then (50 : ℚ) else 0))
      + 10 * qTokens.countP (fun t => includesB
          (norm p.web_name ++ spc :: (norm (p.first_name ++ spc :: p.second_name)
            ++ spc :: norm p.second_name)) t)
      + (min 10 (p.selected_by_percent / 5) + min 10 ((p.total_points : ℚ) / 50)) := by
  simp only [matchScore]
  rw [foldl_token_eq]
  ring

lemma matchScore_token_only_le (p : Player) (qNorm : Str) (qTokens : List Str)
    (h1 : (norm p.web_name == qNorm) = false)
    (h2 : (norm (p.first_name ++ spc :: p.second_name) == qNorm) = false)
    (h3 : (norm p.second_name == qNorm) = false)
    (h4 : startsWithB (norm p.web_name) qNorm = false)
    (h5 : startsWithB (norm p.second_name) qNorm = false)
    (h6 : startsWithB (norm (p.first_name ++ spc :: p.second_name)) qNorm = false) :
    matchScore p qNorm qTokens ≤ 10 * qTokens.length + 20 := by
  rw [matchScore_eq]
  simp only [h1, h2, h3, h4, h5, h6, Bool.false_eq_true, if_false]
  have hcount : (qTokens.countP (fun t => includesB
      (norm p.web_name ++ spc :: (norm (p.first_name ++ spc :: p.second_name)
        ++ spc :: norm p.second_name)) t)) ≤ qTokens.length := List.countP_le_length _
  have hcast : ((qTokens.countP (fun t => includesB
      (norm p.web_name ++ spc :: (norm (p.first_name ++ spc :: p.second_name)
        ++ spc :: norm p.second_name)) t) : ℚ)) ≤ (qTokens.length : ℚ) := by
    exact_mod_cast hcount
  have m1 : min (10 : ℚ) (p.selected_by_percent / 5) ≤ 10 := min_le_left _ _
  have m2 : min (10 : ℚ) ((p.total_points : ℚ) / 50) ≤ 10 := min_le_left _ _
  linarith

lemma matchScore_exact_web_ge (p : Player) (q : Str)
    (hweb : norm p.web_name = norm q)
    (hsbp : 0 ≤ p.selected_by_percent)
    (htp : 0 ≤ p.total_points) :
    100 + 10 * ((tokens q).length : ℚ) ≤ matchScore p (norm q) (tokens q) := by
  rw [matchScore_eq]
  have hcond : (norm p.web_name == norm q) = true := by simp [hweb]
  simp only [hcond, if_true]
  have hall : ∀ t ∈ tokens q, (fun t => includesB
      (norm p.web_name ++ spc :: (norm (p.first_name ++ spc :: p.second_name)
        ++ spc :: norm p.second_name)) t) t = true := by
    intro t ht
    apply includesB_of_sub
    have h1 : t <:+: norm q := tokens_sub ht
    rw [← hweb] at h1
    exact sub_append_right _ h1
  have hcount := List.countP_eq_length.mpr hall
  rw [hcount]
  have i90 : (0 : ℚ) ≤ if (norm (p.first_name ++ spc :: p.second_name) == norm q)
      then (90 : ℚ) else 0 := by split <;> norm_num
  have i85 : (0 : ℚ) ≤ if (norm p.second_name == norm q) then (85 : ℚ) else 0 := by
    split <;> norm_num
  have i60 : (0 : ℚ) ≤ if startsWithB (norm p.web_name) (norm q) then (60 : ℚ) else 0 := by
    split <;> norm_num
  have i55 : (0 : ℚ) ≤ if startsWithB (norm p.second_name) (norm q) then (55 : ℚ) else 0 := by
    split <;> norm_num
  have i50 : (0 : ℚ) ≤ if startsWithB (norm (p.first_name ++ spc :: p.second_name)) (norm q)
      then (50 : ℚ) else 0 := by split <;> norm_num
  have m1 : (0 : ℚ) ≤ min 10 (p.selected_by_percent / 5) :=
    le_min (by norm_num) (div_nonneg hsbp (by norm_num))
  have m2 : (0 : ℚ) ≤ min 10 ((p.total_points : ℚ) / 50) :=
    le_min (by norm_num) (div_nonneg (by exact_mod_cast htp) (by norm_num))
  linarith

lemma scored_shape {f : Player → ℚ} {l : List Player} {pred : Player × ℚ → Bool}
    {x : Player × ℚ} (hx : x ∈ (l.map (fun p => (p, f p))).filter pred) : x.2 = f x.1 := by
  have := List.mem_of_mem_filter hx
  obtain ⟨p, _hp, he⟩ := List.mem_map.mp this
  rw [← he]

lemma pipeline_pairwise (f : Player → ℚ) (l : List Player) (n : Nat) :
    (((List.insertionSort rankRel
        ((l.map (fun p => (p, f p))).filter (fun x => decide (0 < x.2)))).map Prod.fst).take n).Pairwise
      (fun p1 p2 => rankRel (p1, f p1) (p2, f p2)) := by
  have hs : List.Sorted rankRel (List.insertionSort rankRel
      ((l.map (fun p => (p, f p))).filter (fun x => decide (0 < x.2)))) :=
    List.sorted_insertionSort rankRel _
  have h2 : (List.insertionSort rankRel
      ((l.map (fun p => (p, f p))).filter (fun x => decide (0 < x.2)))).Pairwise
      (fun a b => rankRel (a.1, f a.1) (b.1, f b.1)) := by
    refine List.Pairwise.imp_of_mem ?_ hs
    intro a b ha hb hr
    rw [List.mem_insertionSort] at ha hb
    have h1 := scored_shape ha
    have hb1 := scored_shape hb
    obtain ⟨a1, a2⟩ := a
    obtain ⟨b1, b2⟩ := b
    simp only at h1 hb1
    subst h1
    subst hb1
    exact hr
  have h3 : ((List.insertionSort rankRel
      ((l.map (fun p => (p, f p))).filter (fun x => decide (0 < x.2)))).map Prod.fst).Pairwise
      (fun p1 p2 => rankRel (p1, f p1) (p2, f p2)) := List.pairwise_map.mpr h2
  exact h3.sublist (List.take_sublist n _)

lemma pipeline_mem {f : Player → ℚ} {l : List Player} {n : Nat} {p : Player}
    (hp : p ∈ ((List.insertionSort rankRel
        ((l.map (fun q => (q, f q))).filter (fun x => decide (0 < x.2)))).map Prod.fst).take n) :
    p ∈ l ∧ 0 < f p := by
  have h1 := List.mem_of_mem_take hp
  obtain ⟨x, hx, he⟩ := List.mem_map.mp h1
  rw [List.mem_insertionSort] at hx
  have hsh := scored_shape hx
  have hpos := (List.mem_filter.mp hx).2
  have hmem := List.mem_of_mem_filter hx
  obtain ⟨p0, hp0, he0⟩ := List.mem_map.mp hmem
  subst he
  constructor
  · rw [← he0]
    exact hp0
  · have hlt : 0 < x.2 := of_decide_eq_true hpos
    rw [hsh] at hlt
    exact hlt

lemma searchPlayers_eq_of_ne (boot : Boot) (query : Str) (opts : SearchOpts)
    (hq : ¬ norm query = []) :
    searchPlayers boot query opts =
      ((List.insertionSort rankRel
        (((boot.elements.filter
            (keepPlayer (resolvePositionId opts.position)
              (resolveTeamIdSearch boot.teams opts.team))).map
          (fun p => (p, matchScore p (norm query) (tokens query)))).filter
          (fun x => decide (0 < x.2)))).map Prod.fst).take (max 1 (opts.limit.getD 10)).toNat := by
  simp only [searchPlayers, if_neg hq]

lemma searchPlayers_length_le (boot : Boot) (query : Str) (opts : SearchOpts) :
    (searchPlayers boot query opts).length ≤ (max 1 (opts.limit.getD 10)).toNat := by
  by_cases hq : norm query = []
  · simp [searchPlayers, hq]
  · rw [searchPlayers_eq_of_ne boot query opts hq]
    rw [List.length_take]
    exact min_le_left _ _

/-! Claim theorems. -/

/-- C7: searchPlayers with a query whose normalisation is empty returns
the empty sequence for every snapshot and every filter combination,
and never fails (it is a total function of this model). -/
theorem c7_empty_query (boot : Boot) (query : Str) (opts : SearchOpts)
    (h : norm query = []) : searchPlayers boot query opts = [] := by
  simp [searchPlayers, h]

/-- C5: the searchPlayers result is ordered by descending score with
ties broken by descending total season points, every candidate scoring
0 is excluded entirely, and the result length never exceeds
max 1 limit, the limit defaulting to 10 when not supplied. -/
theorem c5_search_ranking (boot : Boot) (query : Str) (opts : SearchOpts) :
    (searchPlayers boot query opts).Pairwise
      (fun p1 p2 =>
        matchScore p2 (norm query) (tokens query) < matchScore p1 (norm query) (tokens query)
        ∨ (matchScore p1 (norm query) (tokens query)
              = matchScore p2 (norm query) (tokens query)
            ∧ p2.total_points ≤ p1.total_points))
    ∧ (∀ p : Player, matchScore p (norm query) (tokens query) = 0 →
        p ∉ searchPlayers boot query opts)
    ∧ (searchPlayers boot query opts).length ≤ (max 1 (opts.limit.getD 10)).toNat := by
  refine ⟨?_, ?_, searchPlayers_length_le boot query opts⟩
  · by_cases hq : norm query = []
    · simp [searchPlayers, hq]
    · rw [searchPlayers_eq_of_ne boot query opts hq]
      exact pipeline_pairwise (fun p => matchScore p (norm query) (tokens query)) _ _
  · intro p hzero hp
    by_cases hq : norm query = []
    · rw [c7_empty_query boot query opts hq] at hp
      exact absurd hp (List.not_mem_nil p)
    · rw [searchPlayers_eq_of_ne boot query opts hq] at hp
      have := (pipeline_mem hp).2
      rw [hzero] at this
      exact absurd this (lt_irrefl 0)

/-- C8: resolvePlayerByName is exactly searchPlayers with limit 1
followed by taking the sole element, null signalling absence; the
limit-1 result has at most one element and the function never throws. -/
theorem c8_resolve_first (boot : Boot) (name : Str) :
    (searchPlayers boot name ⟨none, none, some 1⟩ = [] →
      resolvePlayerByName boot name = none)
    ∧ (∀ (p : Player) (l : List Player),
        searchPlayers boot name ⟨none, none, some 1⟩ = p :: l →
        l = [] ∧ resolvePlayerByName boot name = some p) := by
  constructor
  · intro h
    simp [resolvePlayerByName, h]
  · intro p l h
    have hlen := searchPlayers_length_le boot name ⟨none, none, some 1⟩
    rw [h] at hlen
    have hone : (max 1 (((some 1 : Option Int)).getD 10)).toNat = 1 := rfl
    rw [hone] at hlen
    simp only [List.length_cons] at hlen
    have hl : l = [] := by
      have : l.length = 0 := by omega
      exact List.eq_nil_of_length_eq_zero this
    refine ⟨hl, ?_⟩
    simp [resolvePlayerByName, h]

/-- C10: a string team filter matching no team record (under each
function's own case-folding comparison) is silently ignored: the
result equals the one with no team filter, and no error is raised. -/
theorem c10_unknown_team_ignored (boot : Boot) (query : Str) (pos : Option PosSel)
    (lim : Option Int) (flag : Option Bool) (s : Str) :
    ((boot.teams.find? (fun x =>
        (norm x.short_name == norm s) || (norm x.name == norm s))) = none →
      searchPlayers boot query ⟨pos, some (.tstr s), lim⟩
        = searchPlayers boot query ⟨pos, none, lim⟩)
    ∧ ((boot.teams.find? (fun x =>
        (jsLower x.short_name == jsLower s) || (jsLower x.name == jsLower s))) = none →
      getUnavailablePlayers boot ⟨pos, some (.tstr s), flag⟩
        = getUnavailablePlayers boot ⟨pos, none, flag⟩) := by
  constructor
  · intro h
    simp [searchPlayers, resolveTeamIdSearch, h]
  · intro h
    simp [getUnavailablePlayers, resolveTeamIdUnavail, h]

/-- C6 (amended): a candidate whose normalised short name equals the
normalised query scores strictly higher than a candidate matched only
by query-token substring containment, for all values of the two
candidates' popularity and total-points tiebreak inputs with the
exact-match candidate's popularity percent and total points
nonnegative (the tiebreak terms are capped above at 10 each, but a
negative input makes them unboundedly negative). -/
theorem c6_exact_beats_token (q : Str) (A B : Player)
    (hA : norm A.web_name = norm q)
    (hAsbp : 0 ≤ A.selected_by_percent)
    (hAtp : 0 ≤ A.total_points)
    (hBw : (norm B.web_name == norm q) = false)
    (hBf : (norm (B.first_name ++ spc :: B.second_name) == norm q) = false)
    (hBl : (norm B.second_name == norm q) = false)
    (hBsw : startsWithB (norm B.web_name) (norm q) = false)
    (hBsl : startsWithB (norm B.second_name) (norm q) = false)
    (hBsf : startsWithB (norm (B.first_name ++ spc :: B.second_name)) (norm q) = false) :
    matchScore B (norm q) (tokens q) < matchScore A (norm q) (tokens q) := by
  have hB := matchScore_token_only_le B (norm q) (tokens q) hBw hBf hBl hBsw hBsl hBsf
  have hA2 := matchScore_exact_web_ge A q hA hAsbp hAtp
  linarith

/-- C9 (amended): a record passing the active position/team filters
qualifies as unavailable iff its status is not the available code, or
its (trimmed) news text is non-empty and includeDoubtful is not
explicitly false, or includeDoubtful is explicitly true and its chance
of playing next round is non-null and below 100. -/
theorem c9_unavailable_classification (positionId teamId : Option Int)
    (flag : Option Bool) (p : Player)
    (hpos : (idActive positionId && (p.element_type != positionId.getD 0)) = false)
    (hteam : (idActive teamId && (p.team != teamId.getD 0)) = false) :
    unavailableKeep positionId teamId flag p = true ↔
      (p.status ≠ statusAvailable
        ∨ ((jsTrim p.news).length ≠ 0 ∧ flag ≠ some false)
        ∨ (flag = some true
            ∧ ∃ c, p.chance_of_playing_next_round = some c ∧ c < 100)) := by
  have hnil : ∀ hh : p.news = [], (jsTrim p.news).length = 0 := by
    intro hh
    rw [hh]
    rfl
  unfold unavailableKeep
  simp only [hpos, Bool.false_eq_true, if_false, hteam]
  by_cases hiu : (p.status != statusAvailable) = true
  · rw [if_pos hiu]
    exact iff_of_true rfl (Or.inl (bne_iff_ne.mp hiu))
  · have hueq : p.status = statusAvailable := by
      have := Bool.not_eq_true _ |>.mp hiu
      simpa using this
    rw [if_neg hiu]
    by_cases hhn : (((p.news != []) && decide (0 < (jsTrim p.news).length))
        && (flag != some false)) = true
    · rw [if_pos hhn]
      obtain ⟨⟨_hne, hlen⟩, hflag⟩ := by
        simpa only [Bool.and_eq_true] using hhn
      refine iff_of_true rfl (Or.inr (Or.inl ⟨?_, ?_⟩))
      · have := of_decide_eq_true hlen
        omega
      · simpa using hflag
    · rw [if_neg hhn]
      by_cases hdb : ((match p.chance_of_playing_next_round with
          | some c => decide (c < 100)
          | none => false) && (flag == some true)) = true
      · rw [if_pos hdb]
        obtain ⟨hch, hflag⟩ := by
          simpa only [Bool.and_eq_true] using hdb
        refine iff_of_true rfl (Or.inr (Or.inr ⟨by simpa using hflag, ?_⟩))
        cases hco : p.chance_of_playing_next_round with
        | none => rw [hco] at hch; simp at hch
        | some c =>
          rw [hco] at hch
          exact ⟨c, rfl, of_decide_eq_true hch⟩
      · rw [if_neg hdb]
        refine iff_of_false (by simp) ?_
        rintro (hs | ⟨hlen, hflag⟩ | ⟨hft, c, hc, hlt⟩)
        · exact hs hueq
        · apply hhn
          have hne : p.news ≠ [] := fun hh => hlen (hnil hh)
          simp only [Bool.and_eq_true]
          exact ⟨⟨by simpa using hne, decide_eq_true (Nat.pos_of_ne_zero hlen)⟩,
            by simpa using hflag⟩
        · apply hdb
          simp only [Bool.and_eq_true]
          refine ⟨?_, by simp [hft]⟩
          rw [hc]
          simpa using hlt

/-- C1 (amended): one call of getBootstrapCached propagates an error
only when the foreground fetch delivered that error, no fresh parseable
envelope is stored, and, unless allowStale is explicitly false, no
parseable envelope is stored at all; with allowStale explicitly false a
stale stored envelope does not prevent the failure. -/
theorem c1_failure_conditions {E P : Type} (jsonParse : Str → Option (EnvFields P))
    (raw : Option (Raw P)) (now : ℚ) (allowStale : Option Bool)
    (fetch : Except E P) (e : E)
    (h : (getBootstrapCached jsonParse raw now allowStale fetch).result = .error e) :
    fetch = .error e
    ∧ (∀ env, usableEnv jsonParse raw = some env → isFresh now env.fetchedAt = false)
    ∧ (allowStale ≠ some false → usableEnv jsonParse raw = none) := by
  have hmap : ∀ h2 : (fetch.map some : Except E (Option P)) = .error e, fetch = .error e := by
    intro h2
    cases fetch with
    | ok v => simp [Except.map] at h2
    | error e2 => simpa [Except.map] using h2
  unfold getBootstrapCached at h
  unfold usableEnv
  cases raw with
  | none =>
    exact ⟨hmap h, by simp, by simp⟩
  | some r =>
    by_cases ht : rawTruthy r = true
    · simp only [ht, if_true] at h ⊢
      cases henv : envOf jsonParse r with
      | none =>
        rw [henv] at h
        dsimp only at h
        exact ⟨hmap h, by simp [henv], by simp [henv]⟩
      | some env =>
        rw [henv] at h
        dsimp only at h
        by_cases hfresh : isFresh now env.fetchedAt = true
        · rw [if_pos hfresh] at h
          simp at h
        · rw [if_neg hfresh] at h
          by_cases hstale : (allowStale != some false) = true
          · rw [if_pos hstale] at h
            simp at h
          · rw [if_neg hstale] at h
            refine ⟨hmap h, ?_, ?_⟩
            · intro env2 he2
              have he3 : env = env2 := by injection he2
              subst he3
              exact Bool.not_eq_true _ |>.mp hfresh
            · intro hne
              exact absurd (by simpa using hstale) hne
    · simp only [ht] at h ⊢
      rw [if_neg (by simp : ¬ (false = true))] at h
      have htf : rawTruthy r = false := Bool.not_eq_true _ |>.mp ht
      exact ⟨hmap h, by simp [htf], by simp [htf]⟩

/-- C3 (amended): a stored string that fails JSON.parse and a stored
truthy value of non-string non-object type are treated exactly as an
absent entry (same result, same fetch behaviour), so the
deserialization failure is never surfaced; falsy stored values also
fall through.  (Wrong-shaped object values, by contrast, are cast
without validation and served, see the counterexample.) -/
theorem c3_corrupt_as_absent {E P : Type} (jsonParse : Str → Option (EnvFields P))
    (now : ℚ) (allowStale : Option Bool) (fetch : Except E P) :
    (∀ s : Str, jsonParse s = none →
      getBootstrapCached jsonParse (some (.rstr s)) now allowStale fetch
        = getBootstrapCached jsonParse none now allowStale fetch)
    ∧ (getBootstrapCached jsonParse (some .rtruthyOther) now allowStale fetch
        = getBootstrapCached jsonParse none now allowStale fetch)
    ∧ (getBootstrapCached jsonParse (some .rfalsy) now allowStale fetch
        = getBootstrapCached jsonParse none now allowStale fetch) := by
    refine ⟨?_, ?_, ?_⟩
    · intro s hs
      by_cases hnil : s = []
      · subst hnil
        simp [getBootstrapCached, rawTruthy]
      · simp [getBootstrapCached, rawTruthy, envOf, hs, hnil]
    · simp [getBootstrapCached, rawTruthy, envOf]
    · simp [getBootstrapCached, rawTruthy]

/-- C4: freshness is decided purely by the timestamp difference with a
strict TTL comparison (the boundary difference of exactly TTL seconds
classifies as stale), and a fresh envelope is returned immediately
with no foreground fetch awaited and no background refresh started,
whatever the upstream would have answered. -/
theorem c4_freshness_classification :
    (∀ now t : ℚ, isFresh now (some t) = true ↔ (now - t) / 1000 < TTL_SECONDS)
    ∧ (∀ now t : ℚ, isFresh now (some t) = true ↔ now - t < TTL_SECONDS * 1000)
    ∧ (∀ t : ℚ, isFresh (t + TTL_SECONDS * 1000) (some t) = false)
    ∧ (∀ now t d : ℚ, isFresh (now + d) (some (t + d)) = isFresh now (some t))
    ∧ (∀ (E P : Type) (jsonParse : Str → Option (EnvFields P)) (raw : Option (Raw P))
        (now : ℚ) (env : EnvFields P) (allowStale : Option Bool) (fetch : Except E P),
        usableEnv jsonParse raw = some env → isFresh now env.fetchedAt = true →
        getBootstrapCached jsonParse raw now allowStale fetch
          = ⟨.ok env.payload, false, false⟩) := by
  have hiff : ∀ now t : ℚ, isFresh now (some t) = true ↔ (now - t) / 1000 < TTL_SECONDS := by
    intro now t
    simp [isFresh]
  refine ⟨hiff, ?_, ?_, ?_, ?_⟩
  · intro now t
    rw [hiff]
    rw [div_lt_iff₀ (by norm_num : (0 : ℚ) < 1000)]
  · intro t
    rw [Bool.eq_false_iff]
    intro hcontra
    rw [hiff] at hcontra
    rw [div_lt_iff₀ (by norm_num : (0 : ℚ) < 1000)] at hcontra
    simp at hcontra
  · intro now t d
    have harg : now + d - (t + d) = now - t := by ring
    simp only [isFresh, harg]
  · intro E P jsonParse raw now env allowStale fetch henv hfresh
    unfold usableEnv at henv
    cases raw with
    | none => exact absurd henv (by simp)
    | some r =>
      dsimp only at henv
      by_cases ht : rawTruthy r = true
      · rw [if_pos ht] at henv
        simp only [getBootstrapCached, ht, if_true, henv, hfresh]
      · rw [if_neg ht] at henv
        exact absurd henv (by simp)

/-- C2 (amended): among getBootstrapCached operations at most one
upstream fetch is pending per process: in every reachable state of the
fetch-coordination system the cache-coordinator pending count is at
most one, and the shared inflight handle is set exactly while such a
fetch is pending (it is cleared unconditionally when the fetch
settles, and a new fetch starts only with the handle clear).  The
refresh_bootstrap tool bypasses the handle, so its fetches are not
covered (see the counterexample). -/
theorem c2_single_flight_cache (s : FlightState) (h : FlightReachable s) :
    s.cachePending ≤ 1 ∧ (s.inflight = true ↔ s.cachePending = 1) := by
  induction h with
  | init => exact ⟨Nat.zero_le 1, by simp⟩
  | step hr hstep ih =>
    cases hstep with
    | startCache c r =>
      obtain ⟨hc, hiff⟩ := ih
      have hc0 : c = 0 := by
        by_cases h1 : c = 1
        · exact absurd (hiff.mpr h1) (by simp)
        · simp only [FlightState.cachePending] at hc
          omega
      subst hc0
      exact ⟨Nat.le_refl 1, by simp⟩
    | settleCache i c r =>
      obtain ⟨hc, _⟩ := ih
      simp only [FlightState.cachePending] at hc ⊢
      have hc0 : c = 0 := by omega
      subst hc0
      exact ⟨by omega, by simp⟩
    | startRefresh i c r => exact ih
    | settleRefresh i c r => exact ih

/-! Witnesses and counterexamples. -/

/-- C2 counterexample: with one cache-coordinator fetch in flight,
starting a force refresh reaches a state with two pending upstream
fetches, refuting the process-wide single-flight reading that covers
refresh_bootstrap. -/
theorem c2_counterexample :
    FlightReachable ⟨true, 1, 1⟩
    ∧ 2 ≤ (⟨true, 1, 1⟩ : FlightState).cachePending
        + (⟨true, 1, 1⟩ : FlightState).refreshPending :=
  ⟨.step (.step .init (.startCache 0 0)) (.startRefresh true 1 0), by decide⟩

/-- C2 witness: the amended invariant at a concretely reached state
with the handle set and one cache fetch pending. -/
theorem c2_witness :
    (⟨true, 1, 0⟩ : FlightState).cachePending ≤ 1
    ∧ ((⟨true, 1, 0⟩ : FlightState).inflight = true
        ↔ (⟨true, 1, 0⟩ : FlightState).cachePending = 1) :=
  c2_single_flight_cache ⟨true, 1, 0⟩ (.step .init (.startCache 0 0))

/-- C1 counterexample: a stale well-formed envelope is stored, yet the
call with allowStale explicitly false propagates the upstream error;
the same store state under the default serves the stale payload. -/
theorem c1_counterexample :
    (getBootstrapCached (fun _ => (none : Option (EnvFields Nat)))
        (some (Raw.robj (some 7) (some 0))) 7200000 (some false)
        (Except.error (5 : Nat))).result = Except.error 5
    ∧ getBootstrapCached (fun _ => (none : Option (EnvFields Nat)))
        (some (Raw.robj (some 7) (some 0))) 7200000 (some true)
        (Except.error (5 : Nat))
      = ⟨Except.ok (some 7), false, true⟩ := by
  have hf : isFresh 7200000 (some (0 : ℚ)) = false := by
    simp only [isFresh, TTL_SECONDS]
    rw [decide_eq_false_iff_not]
    norm_num
  constructor
  · simp [getBootstrapCached, rawTruthy, envOf, hf, Except.map]
  · simp [getBootstrapCached, rawTruthy, envOf, hf]

/-- C1 witness: the amended failure conditions at a call with nothing
stored and a failing upstream. -/
theorem c1_witness :
    (Except.error 3 : Except Nat Nat) = Except.error 3
    ∧ (∀ env, usableEnv (fun _ => (none : Option (EnvFields Nat))) none = some env →
        isFresh 0 env.fetchedAt = false)
    ∧ ((none : Option Bool) ≠ some false →
        usableEnv (fun _ => (none : Option (EnvFields Nat))) none = none) :=
  c1_failure_conditions (fun _ => none) none 0 none (Except.error 3) 3 rfl

/-- C3 counterexample: a wrong-shaped object value is not treated as
absent: the call returns its undefined payload and starts a background
refresh, while an absent entry triggers a foreground fetch. -/
theorem c3_counterexample :
    getBootstrapCached (fun _ => (none : Option (EnvFields Nat)))
        (some (Raw.robj none none)) 0 none (Except.ok 42 : Except Nat Nat)
      = ⟨Except.ok none, false, true⟩
    ∧ getBootstrapCached (fun _ => (none : Option (EnvFields Nat)))
        none 0 none (Except.ok 42 : Except Nat Nat)
      = ⟨Except.ok (some 42), true, false⟩ :=
  ⟨rfl, rfl⟩

/-- C3 witness: a string whose parse fails behaves exactly as an
absent entry. -/
theorem c3_witness :
    getBootstrapCached (fun _ => (none : Option (EnvFields Nat)))
        (some (Raw.rstr [Char.ofNat 120])) 0 none (Except.ok 42 : Except Nat Nat)
      = getBootstrapCached (fun _ => (none : Option (EnvFields Nat))) none 0 none
          (Except.ok 42 : Except Nat Nat) :=
  (c3_corrupt_as_absent (fun _ => none) 0 none (Except.ok 42)).1 [Char.ofNat 120] rfl

/-- C4 witness: a fresh stored envelope is served with no foreground
fetch and no background refresh even though the upstream would fail. -/
theorem c4_witness :
    getBootstrapCached (fun _ => (none : Option (EnvFields Nat)))
        (some (Raw.robj (some 3) (some 0))) 0 none (Except.error (1 : Nat))
      = ⟨Except.ok (some 3), false, false⟩ :=
  c4_freshness_classification.2.2.2.2 Nat Nat (fun _ => none)
    (some (Raw.robj (some 3) (some 0))) 0 ⟨some 3, some 0⟩ none (Except.error 1)
    rfl (by show isFresh 0 (some 0) = true
            simp only [isFresh, TTL_SECONDS]
            rw [decide_eq_true_eq]
            norm_num)

/-- C7 witness: a whitespace-only query with every filter active still
returns the empty sequence. -/
theorem c7_witness :
    searchPlayers bootZero [spc]
      ⟨some (.pcode .MID), some (.tstr [Char.ofNat 97]), some 3⟩ = [] :=
  c7_empty_query bootZero [spc] _ (by decide)

/-- C9 counterexample: an available player with non-empty news is
excluded when includeDoubtful is explicitly false, refuting the
regardless-of-the-flag reading. -/
theorem c9_counterexample :
    pNews.status = statusAvailable ∧ pNews.news ≠ []
    ∧ getUnavailablePlayers bootNews ⟨none, none, some false⟩ = [] :=
  ⟨rfl, by decide, rfl⟩

/-- C9 witness: with includeDoubtful explicitly true, an available
player with chance 50 qualifies. -/
theorem c9_witness :
    unavailableKeep none none (some true) pDoubt = true :=
  (c9_unavailable_classification none none (some true) pDoubt rfl rfl).mpr
    (Or.inr (Or.inr ⟨rfl, 50, rfl, by norm_num⟩))

/-- C6 witness: the amended statement at two synthetic records, the
exact-match one with zero popularity and zero points. -/
theorem c6_witness :
    matchScore pToken (norm qAB) (tokens qAB)
      < matchScore pExact (norm qAB) (tokens qAB) :=
  c6_exact_beats_token qAB pExact pToken (by decide) (le_refl 0) (le_refl 0)
    (by decide) (by decide) (by decide) (by decide) (by decide) (by decide)

/-- C10 witness: a team string matching neither team name is ignored
by both functions on a concrete snapshot. -/
theorem c10_witness :
    searchPlayers bootST [Char.ofNat 115] ⟨none, some (.tstr [Char.ofNat 113]), none⟩
      = searchPlayers bootST [Char.ofNat 115] ⟨none, none, none⟩
    ∧ getUnavailablePlayers bootST ⟨none, some (.tstr [Char.ofNat 113]), some true⟩
      = getUnavailablePlayers bootST ⟨none, none, some true⟩ :=
  ⟨(c10_unknown_team_ignored bootST [Char.ofNat 115] none none (some true)
      [Char.ofNat 113]).1 (by decide),
   (c10_unknown_team_ignored bootST [Char.ofNat 115] none none (some true)
      [Char.ofNat 113]).2 (by decide)⟩

/-- C5 witness: a record with no match signal (score exactly 0) is
excluded from the result. -/
theorem c5_witness :
    pZero ∉ searchPlayers bootZero [Char.ofNat 113] ⟨none, none, none⟩ := by
  refine (c5_search_ranking bootZero [Char.ofNat 113] ⟨none, none, none⟩).2.1 pZero ?_
  have h1 : norm [Char.ofNat 113] = [Char.ofNat 113] := by decide
  have h2 : tokens [Char.ofNat 113] = [[Char.ofNat 113]] := by decide
  rw [h1, h2, matchScore_eq]
  norm_num [(by decide : (norm pZero.web_name == [Char.ofNat 113]) = false),
    (by decide : (norm (pZero.first_name ++ spc :: pZero.second_name)
      == [Char.ofNat 113]) = false),
    (by decide : (norm pZero.second_name == [Char.ofNat 113]) = false),
    (by decide : startsWithB (norm pZero.web_name) [Char.ofNat 113] = false),
    (by decide : startsWithB (norm pZero.second_name) [Char.ofNat 113] = false),
    (by decide : startsWithB (norm (pZero.first_name ++ spc :: pZero.second_name))
      [Char.ofNat 113] = false),
    (by decide : List.countP (fun t => includesB (norm pZero.web_name
      ++ spc :: (norm (pZero.first_name ++ spc :: pZero.second_name)
        ++ spc :: norm pZero.second_name)) t) [[Char.ofNat 113]] = 0)]
  rw [show pZero.selected_by_percent = 0 from rfl, show pZero.total_points = 0 from rfl]
  norm_num

/-- C6 counterexample: with total points minus 100000 the exact-match
candidate scores strictly below the token-only candidate, so the
unconditional regardless-of-tiebreak reading is false on the code. -/
theorem c6_counterexample :
    norm pExactNeg.web_name = norm qAB
    ∧ matchScore pExactNeg (norm qAB) (tokens qAB)
        < matchScore pToken (norm qAB) (tokens qAB) := by
  constructor
  · decide
  · have h1 : norm qAB = qAB := by decide
    have h2 : tokens qAB = [qAB] := by decide
    rw [h1, h2]
    have hA : matchScore pExactNeg qAB [qAB] = -1830 := by
      rw [matchScore_eq]
      norm_num [(by decide : (norm pExactNeg.web_name == qAB) = true),
        (by decide : (norm (pExactNeg.first_name ++ spc :: pExactNeg.second_name)
          == qAB) = false),
        (by decide : (norm pExactNeg.second_name == qAB) = false),
        (by decide : startsWithB (norm pExactNeg.web_name) qAB = true),
        (by decide : startsWithB (norm pExactNeg.second_name) qAB = false),
        (by decide : startsWithB (norm (pExactNeg.first_name
          ++ spc :: pExactNeg.second_name)) qAB = false),
        (by decide : List.countP (fun t => includesB (norm pExactNeg.web_name
          ++ spc :: (norm (pExactNeg.first_name ++ spc :: pExactNeg.second_name)
            ++ spc :: norm pExactNeg.second_name)) t) [qAB] = 1)]
      rw [show pExactNeg.selected_by_percent = 0 from rfl,
        show pExactNeg.total_points = -100000 from rfl]
      norm_num
    have hB : matchScore pToken qAB [qAB] = 10 := by
      rw [matchScore_eq]
      norm_num [(by decide : (norm pToken.web_name == qAB) = false),
        (by decide : (norm (pToken.first_name ++ spc :: pToken.second_name)
          == qAB) = false),
        (by decide : (norm pToken.second_name == qAB) = false),
        (by decide : startsWithB (norm pToken.web_name) qAB = false),
        (by decide : startsWithB (norm pToken.second_name) qAB = false),
        (by decide : startsWithB (norm (pToken.first_name
          ++ spc :: pToken.second_name)) qAB = false),
        (by decide : List.countP (fun t => includesB (norm pToken.web_name
          ++ spc :: (norm (pToken.first_name ++ spc :: pToken.second_name)
            ++ spc :: norm pToken.second_name)) t) [qAB] = 1)]
      rw [show pToken.selected_by_percent = 0 from rfl,
        show pToken.total_points = 0 from rfl]
      norm_num
    rw [hA, hB]
    norm_num

/-- C8 witness: on a one-player snapshot the resolver returns exactly
the sole element of the limit-1 search. -/
theorem c8_witness : resolvePlayerByName bootS [Char.ofNat 115] = some pS := by
  have hsc : matchScore pS [Char.ofNat 115] [[Char.ofNat 115]] = 170 := by
    rw [matchScore_eq]
    norm_num [(by decide : (norm pS.web_name == [Char.ofNat 115]) = true),
      (by decide : (norm (pS.first_name ++ spc :: pS.second_name)
        == [Char.ofNat 115]) = false),
      (by decide : (norm pS.second_name == [Char.ofNat 115]) = false),
      (by decide : startsWithB (norm pS.web_name) [Char.ofNat 115] = true),
      (by decide : startsWithB (norm pS.second_name) [Char.ofNat 115] = false),
      (by decide : startsWithB (norm (pS.first_name ++ spc :: pS.second_name))
        [Char.ofNat 115] = false),
      (by decide : List.countP (fun t => includesB (norm pS.web_name
        ++ spc :: (norm (pS.first_name ++ spc :: pS.second_name)
          ++ spc :: norm pS.second_name)) t) [[Char.ofNat 115]] = 1)]
    rw [show pS.selected_by_percent = 0 from rfl, show pS.total_points = 0 from rfl]
    norm_num
  have hs : searchPlayers bootS [Char.ofNat 115] ⟨none, none, some 1⟩ = [pS] := by
    rw [searchPlayers_eq_of_ne bootS [Char.ofNat 115] ⟨none, none, some 1⟩ (by decide)]
    rw [(by decide : norm [Char.ofNat 115] = [Char.ofNat 115])]
    rw [(by decide : tokens [Char.ofNat 115] = [[Char.ofNat 115]])]
    rw [(by decide : bootS.elements.filter
      (keepPlayer (resolvePositionId none) (resolveTeamIdSearch bootS.teams none)) = [pS])]
    simp only [List.map_cons, List.map_nil]
    rw [hsc]
    norm_num [List.insertionSort, List.orderedInsert]
  exact ((c8_resolve_first bootS [Char.ofNat 115]).2 pS [] hs).2

end FplMcp
